import Mathlib

/-!
Shallow embedding of the dungeon-honor-api core logic (src/api/index.ts).

JavaScript value conventions used throughout:
* `NaN` (the result of a failed `parseInt`, or arithmetic involving `NaN`,
  or `0/0`) is modelled as `none` in an `Option`; an actual number `n` is
  `some n`.
* `undefined` object fields / missing arrays are modelled as `none` of the
  surrounding `Option`.
* Integer-valued telemetry is modelled with `Int`, score arithmetic with `ℚ`.
-/

namespace DungeonHonor

/-- JS `String.prototype.split(":")` at the character-list level:
`"a:b"` ↦ `[['a'],['b']]`, `""` ↦ `[[]]`, `":x"` ↦ `[[],['x']]`. -/
def splitCh : List Char → List (List Char)
  | [] => [[]]
  | c :: rest =>
    if c = ':' then [] :: splitCh rest
    else
      match splitCh rest with
      | [] => [[c]]
      | h :: t => (c :: h) :: t

/-- JS `Array.prototype.join(":")` at the character-list level. -/
def joinCh : List (List Char) → List Char
  | [] => []
  | [s] => s
  | s :: rest => s ++ ':' :: joinCh rest

/-- String-level `key.split(":")`. -/
def splitColon (s : String) : List String :=
  (splitCh s.data).map String.mk

/-- String-level `parts.join(":")`. -/
def joinColon (parts : List String) : String :=
  String.mk (joinCh (parts.map String.data))

/-- JS array indexing `xs[i]`: out-of-range (including negative) gives
`undefined` (`none`). -/
def jsIdx {α : Type} (xs : List α) (i : Int) : Option α :=
  if i < 0 then none else xs.get? i.toNat

/-- Value of a digit string, most significant first. -/
def digitsVal (l : List Char) : Nat :=
  l.foldl (fun n c => n * 10 + (c.toNat - 48)) 0

/-- JS `parseInt(s, 10)`: skip leading whitespace, optional sign, then the
longest prefix of decimal digits; no digits gives `NaN` (`none`). -/
def parseIntJs (s : String) : Option Int :=
  let l := s.data.dropWhile (fun c => c.isWhitespace)
  match l with
  | '-' :: rest =>
    let ds := rest.takeWhile (fun c => c.isDigit)
    if ds.isEmpty then none else some (-(digitsVal ds : Int))
  | '+' :: rest =>
    let ds := rest.takeWhile (fun c => c.isDigit)
    if ds.isEmpty then none else some ((digitsVal ds : Int))
  | _ =>
    let ds := l.takeWhile (fun c => c.isDigit)
    if ds.isEmpty then none else some ((digitsVal ds : Int))

/-- JS `a + b` on possibly-`NaN` integer values: `NaN` is absorbing. -/
def jsAdd : Option Int → Option Int → Option Int
  | some a, some b => some (a + b)
  | _, _ => none

/-- JS `x || 0` applied to a stored sum: `NaN` (falsy) gives `0`,
a number gives itself (`0 || 0` is again `0`). -/
def jsOr0 : Option Int → Int
  | none => 0
  | some n => n

/-- Result of decoding one behavior key (the element of `labelsAndValues`
built at index.ts lines 16-21): `behaviorName` is `segments[len-2]`
(`undefined` when the key has a single segment), `value` is
`parseInt(segments[len-1], 10)` (`NaN` on parse failure). -/
structure RawRecord where
  behaviorName : Option String
  value : Option Int
  deriving DecidableEq, Repr

/-- One entry of the aggregated output of `processBehaviorData`
(`{ name, value }`, index.ts lines 30-33); `value` is `NaN` (`none`)
when a non-integer key poisoned the sum. -/
structure BehaviorTotal where
  name : String
  value : Option Int
  deriving DecidableEq, Repr

/-- One `{ key }` entry of the rejoin endpoint's data array. -/
structure RejoinItem where
  key : String
  deriving DecidableEq, Repr

/-- One `{ name, value }` item as seen by the score endpoint after the
JSON round trip (values are plain numbers there). -/
structure BehaviorItem where
  name : String
  value : ℚ
  deriving DecidableEq, Repr

/-- Last colon-segment: `segments[segments.length - 1]` after `s.split(":")` — the last
colon-segment of a string (always defined, since a JS split is nonempty). -/
def lastSegJs (s : String) : Option String :=
  let segments := splitColon s
  jsIdx segments ((segments.length : Int) - 1)

/-- The per-key mapping step of `processBehaviorData` (index.ts 16-21). -/
def decodeBehaviorKey (key : String) : RawRecord :=
  let segments := splitColon key
  let behaviorName := jsIdx segments ((segments.length : Int) - 2)
  let value :=
    match jsIdx segments ((segments.length : Int) - 1) with
    | some s => parseIntJs s
    | none => none
  ⟨behaviorName, value⟩

/-- The update `labelSum[nm] = (labelSum[nm] || 0) + v` on an insertion-ordered
association list (JS object with `Object.keys` insertion order). -/
def insertAdd : List (String × Option Int) → String → Option Int → List (String × Option Int)
  | [], nm, v => [(nm, jsAdd (some 0) v)]
  | (k, w) :: rest, nm, v =>
    if k = nm then (k, jsAdd (some (jsOr0 w)) v) :: rest
    else (k, w) :: insertAdd rest nm v

/-- One step of the `forEach` at index.ts 24-28: records with a falsy
`behaviorName` (`undefined` or `""`) are skipped. -/
def updateLabelSum (acc : List (String × Option Int)) (r : RawRecord) :
    List (String × Option Int) :=
  match r.behaviorName with
  | some nm => if nm = "" then acc else insertAdd acc nm r.value
  | none => acc

/-- The aggregation half of `processBehaviorData` (index.ts 23-33). -/
def aggregateBehaviors (records : List RawRecord) : List BehaviorTotal :=
  (records.foldl updateLabelSum []).map (fun p => ⟨p.1, p.2⟩)

/-- The whole `processBehaviorData` helper (index.ts 15-34). -/
def processBehaviorData (keys : List String) : List BehaviorTotal :=
  aggregateBehaviors (keys.map decodeBehaviorKey)

/-- Rejoin key decoding (index.ts 92-94): drop the first three
colon-segments and rejoin the rest with `":"`. -/
def decodeRejoinKey (key : String) : String :=
  joinColon ((splitColon key).drop 3)

/-- The yes-rate of index.ts 157-158: count of `item.key === "yes"`
divided by the array length; an empty array gives `0/0 = NaN` (`none`). -/
def rejoinYesRate (rdata : List RejoinItem) : Option ℚ :=
  let rejoinScore :=
    rdata.foldl (fun sum item => if item.key = "yes" then sum + 1 else sum) (0 : ℚ)
  if rdata.length = 0 then none
  else some (rejoinScore / (rdata.length : ℚ))

/-- The mutable `categoryScores` object of index.ts 140. -/
structure CategoryScores where
  damage : ℚ
  defense : ℚ
  healing : ℚ
  communication : ℚ
  deriving DecidableEq, Repr

/-- One step of the `forEach` at index.ts 142-150: re-split the item's
name on `":"`, take the last segment, and add the value to the matching
fixed category if there is one (`hasOwnProperty` check). -/
def csStep (acc : CategoryScores) (item : BehaviorItem) : CategoryScores :=
  let behaviorName := lastSegJs item.name
  if behaviorName = some "damage" then { acc with damage := acc.damage + item.value }
  else if behaviorName = some "defense" then { acc with defense := acc.defense + item.value }
  else if behaviorName = some "healing" then { acc with healing := acc.healing + item.value }
  else if behaviorName = some "communication" then
    { acc with communication := acc.communication + item.value }
  else acc

/-- The `categoryScores` object after the `forEach` at index.ts 142-150. -/
def categoryScoresOf (bdata : List BehaviorItem) : CategoryScores :=
  bdata.foldl csStep ⟨0, 0, 0, 0⟩

/-- Sum of the four fixed category buckets (numerator of index.ts 152-153). -/
def csTotal (bdata : List BehaviorItem) : ℚ :=
  let cs := categoryScoresOf bdata
  cs.damage + cs.defense + cs.healing + cs.communication

/-- The `calculateTeammateScore` function (index.ts 137-161). `none` arguments model an
`undefined` `data` field (guard at line 138 returns `0`); a `none` result
models a `NaN` score (empty rejoin array). -/
def calculateTeammateScore (behaviorData : Option (List BehaviorItem))
    (rejoinData : Option (List RejoinItem)) : Option ℚ :=
  match behaviorData, rejoinData with
  | some bdata, some rdata =>
    let totalCategoryScore := csTotal bdata / 4
    let normalizedCategoryScore := ((totalCategoryScore + 1) / 2) * 100
    match rejoinYesRate rdata with
    | none => none
    | some rejoinRate => some (normalizedCategoryScore + rejoinRate * 10)
  | _, _ => some 0

/-- Outcome of one read-only endpoint: HTTP 404 or 200-with-data. -/
inductive ApiResult (α : Type) where
  | notFound
  | ok (data : α)
  deriving DecidableEq, Repr

/-- Endpoint `GET /behaviors/:name/:realm` (index.ts 37-70), as a function of the
key list returned by the prefix scan (`none` models a null reply). -/
def behaviorsHandler (keys : Option (List String)) : ApiResult (List BehaviorTotal) :=
  match keys with
  | none => .notFound
  | some ks => if ks.length = 0 then .notFound else .ok (processBehaviorData ks)

/-- Endpoint `GET /rejoinRating/:name/:realm` (index.ts 73-110). -/
def rejoinHandler (keys : Option (List String)) : ApiResult (List RejoinItem) :=
  match keys with
  | none => .notFound
  | some ks =>
    if ks.length = 0 then .notFound
    else .ok (ks.map (fun k => ⟨decodeRejoinKey k⟩))

/-- JSON round trip of one aggregated entry on its way into the score
endpoint: `NaN` serializes to `null`, and `+= null` adds `0`. -/
def itemOfTotal (t : BehaviorTotal) : BehaviorItem :=
  ⟨t.name, ((jsOr0 t.value : Int) : ℚ)⟩

/-- Outcome of the score endpoint. It reaches the other two endpoints via
axios, whose default validateStatus rejects every non-2xx response: an
upstream 404 makes the awaited call throw, the catch at index.ts 170
answers 500 (`internalError`), and the success check at index.ts 129-134
(the 404 branch, `notFound`) is unreachable, since a 2xx body always
carries `success: true`. -/
inductive ScoreResult where
  | internalError
  | notFound
  | ok (score : Option ℚ)
  deriving DecidableEq, Repr

/-- Endpoint `GET /score/:name/:realm` (index.ts 113-177): composes the two
handlers; when either upstream handler answers 404, the awaited axios call
rejects and the endpoint returns 500 Internal Server Error. -/
def scoreHandler (bkeys rkeys : Option (List String)) : ScoreResult :=
  match behaviorsHandler bkeys, rejoinHandler rkeys with
  | .ok bdata, .ok rdata =>
    .ok (calculateTeammateScore (some (bdata.map itemOfTotal)) (some rdata))
  | _, _ => .internalError

/-! Observation functions used to state properties of the aggregation. -/

/-- Lookup in the intermediate `labelSum` association list: `none` when the
category was never inserted, `some w` for a stored (possibly `NaN`) sum. -/
def fetchPairs : List (String × Option Int) → String → Option (Option Int)
  | [], _ => none
  | (k, w) :: rest, c => if k = c then some w else fetchPairs rest c

/-- Lookup of a category's entry value in the aggregated output list. -/
def fetchTotal : List BehaviorTotal → String → Option (Option Int)
  | [], _ => none
  | e :: rest, c => if e.name = c then some e.value else fetchTotal rest c

/-- The read `(labelSum[c] || 0)` through `fetchPairs`: an absent key and a
stored `NaN` both give `0`. -/
def jsOr0Flat : Option (Option Int) → Int
  | none => 0
  | some w => jsOr0 w

/-- The records of `l` whose decoded category is exactly `c`. -/
def matchRecs (l : List RawRecord) (c : String) : List RawRecord :=
  l.filter (fun r => decide (r.behaviorName = some c))

/-- Mathematical sum of the (integer) values of the records of `l` whose
category is `c`. -/
def sumVals (l : List RawRecord) (c : String) : Int :=
  ((matchRecs l c).map (fun r => jsOr0 r.value)).sum

/-- Sum of the values of the score-input items whose name's last
colon-segment is `c`. -/
def sumBy (l : List BehaviorItem) (c : String) : ℚ :=
  ((l.filter (fun e => decide (lastSegJs e.name = some c))).map (fun e => e.value)).sum

/-- Read a category from a list of score-input items as a mapping,
defaulting an absent name to `0`. -/
def fetchItemD : List BehaviorItem → String → ℚ
  | [], _ => 0
  | e :: rest, c => if e.name = c then e.value else fetchItemD rest c

/-- All stored sums in the accumulator are actual numbers (no `NaN`). -/
def accGood (acc : List (String × Option Int)) : Prop :=
  ∀ p ∈ acc, p.2 ≠ none

/-! ### Lemmas about splitting and joining on `":"` -/

theorem mk_data (s : String) : String.mk s.data = s := rfl

theorem splitCh_ne_nil : ∀ l : List Char, splitCh l ≠ []
  | [] => by simp [splitCh]
  | c :: rest => by
    simp only [splitCh]
    split
    · simp
    · split <;> simp

theorem splitCh_no_colon : ∀ {l : List Char}, ':' ∉ l → splitCh l = [l]
  | [], _ => rfl
  | c :: rest, h => by
    have hc : ¬ c = ':' := fun hc => h (hc ▸ List.mem_cons_self c rest)
    have hr : splitCh rest = [rest] :=
      splitCh_no_colon (fun hm => h (List.mem_cons_of_mem c hm))
    simp [splitCh, hc, hr]

theorem splitCh_append : ∀ (l1 l2 : List Char), ':' ∉ l1 →
    splitCh (l1 ++ ':' :: l2) = l1 :: splitCh l2
  | [], l2, _ => by simp [splitCh]
  | c :: t, l2, h => by
    have hc : ¬ c = ':' := fun hc => h (hc ▸ List.mem_cons_self c t)
    have ht : splitCh (t ++ ':' :: l2) = t :: splitCh l2 :=
      splitCh_append t l2 (fun hm => h (List.mem_cons_of_mem c hm))
    simp [splitCh, hc, ht]

theorem joinCh_splitCh : ∀ l : List Char, joinCh (splitCh l) = l
  | [] => rfl
  | c :: rest => by
    have ih := joinCh_splitCh rest
    by_cases hc : c = ':'
    · subst hc
      obtain ⟨h, t, hht⟩ : ∃ h t, splitCh rest = h :: t := by
        cases hs : splitCh rest with
        | nil => exact absurd hs (splitCh_ne_nil rest)
        | cons h t => exact ⟨h, t, rfl⟩
      rw [hht] at ih
      simp [splitCh, hht, joinCh, ih]
    · obtain ⟨h, t, hht⟩ : ∃ h t, splitCh rest = h :: t := by
        cases hs : splitCh rest with
        | nil => exact absurd hs (splitCh_ne_nil rest)
        | cons h t => exact ⟨h, t, rfl⟩
      rw [hht] at ih
      cases t with
      | nil => simp [splitCh, hc, hht, joinCh] at ih ⊢; simp [ih]
      | cons x t' =>
        simp [splitCh, hc, hht, joinCh] at ih ⊢
        simp [ih]

theorem splitColon_no_colon (s : String) (h : ':' ∉ s.data) : splitColon s = [s] := by
  unfold splitColon
  rw [splitCh_no_colon h]
  simp [mk_data]

theorem data_append_colon (a s : String) :
    (a ++ ":" ++ s).data = a.data ++ ':' :: s.data := by
  rw [String.data_append, String.data_append]
  show a.data ++ [':'] ++ s.data = _
  simp

theorem splitColon_cons (a s : String) (h : ':' ∉ a.data) :
    splitColon (a ++ ":" ++ s) = a :: splitColon s := by
  unfold splitColon
  rw [data_append_colon, splitCh_append _ _ h]
  simp [mk_data]

theorem joinColon_splitColon (s : String) : joinColon (splitColon s) = s := by
  unfold joinColon splitColon
  rw [List.map_map]
  have hmap : (String.data ∘ String.mk : List Char → List Char) = id := by
    funext l; rfl
  rw [hmap, List.map_id, joinCh_splitCh, mk_data]

theorem lastSegJs_no_colon (s : String) (h : ':' ∉ s.data) : lastSegJs s = some s := by
  unfold lastSegJs
  rw [splitColon_no_colon s h]
  simp [jsIdx]

/-! ### Lemmas about the `labelSum` accumulator -/

theorem fetchPairs_eq_some_mem : ∀ (acc : List (String × Option Int)) (c : String)
    (w : Option Int), fetchPairs acc c = some w → (c, w) ∈ acc
  | [], _, _, h => by simp [fetchPairs] at h
  | (k, w') :: rest, c, w, h => by
    by_cases hk : k = c
    · subst hk
      simp [fetchPairs] at h
      subst h
      exact List.mem_cons_self _ _
    · simp [fetchPairs, hk] at h
      exact List.mem_cons_of_mem _ (fetchPairs_eq_some_mem rest c w h)

theorem fetchPairs_insertAdd_self : ∀ (acc : List (String × Option Int)) (nm : String)
    (v : Option Int),
    fetchPairs (insertAdd acc nm v) nm = some (jsAdd (some (jsOr0Flat (fetchPairs acc nm))) v)
  | [], nm, v => by simp [insertAdd, fetchPairs, jsOr0Flat]
  | (k, w) :: rest, nm, v => by
    by_cases hk : k = nm
    · subst hk
      simp [insertAdd, fetchPairs, jsOr0Flat]
    · simp [insertAdd, fetchPairs, hk]
      exact fetchPairs_insertAdd_self rest nm v

theorem fetchPairs_insertAdd_ne : ∀ (acc : List (String × Option Int)) (nm : String)
    (v : Option Int) (c : String), c ≠ nm →
    fetchPairs (insertAdd acc nm v) c = fetchPairs acc c
  | [], nm, v, c, hc => by
    have hnc : ¬ nm = c := fun h => hc h.symm
    simp [insertAdd, fetchPairs, hnc]
  | (k, w) :: rest, nm, v, c, hc => by
    by_cases hk : k = nm
    · subst hk
      have hkc : ¬ k = c := fun h => hc h.symm
      simp [insertAdd, fetchPairs, hkc]
    · simp only [insertAdd, if_neg hk, fetchPairs]
      by_cases hkc : k = c
      · simp [hkc]
      · simp only [if_neg hkc]
        exact fetchPairs_insertAdd_ne rest nm v c hc

theorem accGood_insertAdd : ∀ (acc : List (String × Option Int)) (nm : String)
    (v : Option Int), v ≠ none → accGood acc → accGood (insertAdd acc nm v)
  | [], nm, v, hv, _ => by
    obtain ⟨b, rfl⟩ := Option.ne_none_iff_exists'.mp hv
    intro p hp
    simp [insertAdd, jsAdd] at hp
    simp [hp]
  | (k, w) :: rest, nm, v, hv, hgood => by
    obtain ⟨b, rfl⟩ := Option.ne_none_iff_exists'.mp hv
    by_cases hk : k = nm
    · subst hk
      intro p hp
      simp [insertAdd, jsAdd] at hp
      rcases hp with hp | hp
      · simp [hp]
      · exact hgood p (List.mem_cons_of_mem _ hp)
    · intro p hp
      simp only [insertAdd, if_neg hk] at hp
      rcases List.mem_cons.mp hp with hp | hp
      · exact hgood p (hp ▸ List.mem_cons_self _ _)
      · exact accGood_insertAdd rest nm (some b) (by simp) (fun q hq =>
          hgood q (List.mem_cons_of_mem _ hq)) p hp

/-- How the whole `forEach` fold transforms one entry of `labelSum`, in
terms of the matching input records: under no-`NaN` inputs and a clean
accumulator, the stored sum for a (nonempty) category is its previous
value (or `0`) plus the sum of the matching records' values. -/
theorem foldl_update_fetch : ∀ (l : List RawRecord) (acc : List (String × Option Int))
    (c : String), c ≠ "" → (∀ r ∈ l, r.value ≠ none) → accGood acc →
    fetchPairs (l.foldl updateLabelSum acc) c =
      if fetchPairs acc c = none ∧ matchRecs l c = [] then none
      else some (some (jsOr0Flat (fetchPairs acc c) + sumVals l c)) := by
  intro l
  induction l with
  | nil =>
    intro acc c _ _ hgood
    simp only [List.foldl_nil, matchRecs, List.filter_nil, sumVals, List.map_nil,
      List.sum_nil, add_zero, and_true]
    cases hp : fetchPairs acc c with
    | none => simp
    | some w =>
      have hw : w ≠ none := hgood _ (fetchPairs_eq_some_mem acc c w hp)
      obtain ⟨n, rfl⟩ := Option.ne_none_iff_exists'.mp hw
      simp [jsOr0Flat, jsOr0]
  | cons r l ih =>
    intro acc c hc hvals hgood
    have hval_r : r.value ≠ none := hvals r (List.mem_cons_self r l)
    have hvals' : ∀ x ∈ l, x.value ≠ none := fun x hx => hvals x (List.mem_cons_of_mem r hx)
    rw [List.foldl_cons]
    cases hbn : r.behaviorName with
    | none =>
      have hupd : updateLabelSum acc r = acc := by simp [updateLabelSum, hbn]
      have hm : matchRecs (r :: l) c = matchRecs l c := by
        simp [matchRecs, List.filter_cons, hbn]
      have hs : sumVals (r :: l) c = sumVals l c := by simp only [sumVals, hm]
      rw [hupd, ih acc c hc hvals' hgood, hm, hs]
    | some nm =>
      by_cases hnm : nm = ""
      · subst hnm
        have hupd : updateLabelSum acc r = acc := by simp [updateLabelSum, hbn]
        have hm : matchRecs (r :: l) c = matchRecs l c := by
          have hne : ¬ (("" : String) = c) := fun h => hc h.symm
          simp [matchRecs, List.filter_cons, hbn, hne]
        have hs : sumVals (r :: l) c = sumVals l c := by simp only [sumVals, hm]
        rw [hupd, ih acc c hc hvals' hgood, hm, hs]
      · have hupd : updateLabelSum acc r = insertAdd acc nm r.value := by
          simp [updateLabelSum, hbn, hnm]
        obtain ⟨v, hv⟩ := Option.ne_none_iff_exists'.mp hval_r
        have hgood' : accGood (insertAdd acc nm r.value) :=
          accGood_insertAdd acc nm r.value hval_r hgood
        by_cases hcnm : nm = c
        · subst hcnm
          have hm : matchRecs (r :: l) nm = r :: matchRecs l nm := by
            simp [matchRecs, List.filter_cons, hbn]
          have hs : sumVals (r :: l) nm = v + sumVals l nm := by
            simp only [sumVals, hm, List.map_cons, List.sum_cons, hv, jsOr0]
          rw [hupd, ih _ nm hc hvals' hgood', fetchPairs_insertAdd_self, hv, hm, hs]
          simp [jsAdd, jsOr0Flat, jsOr0, add_assoc]
        · have hm : matchRecs (r :: l) c = matchRecs l c := by
            simp [matchRecs, List.filter_cons, hbn, hcnm]
          have hs : sumVals (r :: l) c = sumVals l c := by simp only [sumVals, hm]
          have hfp : fetchPairs (insertAdd acc nm r.value) c = fetchPairs acc c :=
            fetchPairs_insertAdd_ne acc nm r.value c (fun h => hcnm h.symm)
          rw [hupd, ih _ c hc hvals' hgood', hfp, hm, hs]

theorem fetchTotal_map : ∀ (acc : List (String × Option Int)) (c : String),
    fetchTotal (acc.map (fun p => (⟨p.1, p.2⟩ : BehaviorTotal))) c = fetchPairs acc c
  | [], _ => rfl
  | (k, w) :: rest, c => by
    by_cases hk : k = c
    · simp [fetchTotal, fetchPairs, hk]
    · simp only [List.map_cons, fetchTotal, fetchPairs, if_neg hk]
      exact fetchTotal_map rest c

/-- The aggregated total of a (nonempty-named) category, for `NaN`-free
inputs: absent when no record matches, otherwise the sum of the matching
records' values. -/
theorem fetchTotal_aggregate (l : List RawRecord) (c : String) (hc : c ≠ "")
    (hvals : ∀ r ∈ l, r.value ≠ none) :
    fetchTotal (aggregateBehaviors l) c =
      if matchRecs l c = [] then none else some (some (sumVals l c)) := by
  unfold aggregateBehaviors
  rw [fetchTotal_map, foldl_update_fetch l [] c hc hvals (by intro p hp; simp at hp)]
  simp [fetchPairs, jsOr0Flat]

theorem fetchPairs_foldl_empty : ∀ (l : List RawRecord) (acc : List (String × Option Int)),
    fetchPairs acc "" = none → fetchPairs (l.foldl updateLabelSum acc) "" = none
  | [], _, h => h
  | r :: l, acc, h => by
    rw [List.foldl_cons]
    apply fetchPairs_foldl_empty l
    cases hbn : r.behaviorName with
    | none => simpa [updateLabelSum, hbn] using h
    | some nm =>
      by_cases hnm : nm = ""
      · simpa [updateLabelSum, hbn, hnm] using h
      · rw [updateLabelSum, hbn]
        simp only [if_neg hnm]
        rw [fetchPairs_insertAdd_ne acc nm r.value "" (fun he => hnm he.symm)]
        exact h

/-- A category with an empty name never appears in the aggregated output. -/
theorem fetchTotal_aggregate_empty (l : List RawRecord) :
    fetchTotal (aggregateBehaviors l) "" = none := by
  unfold aggregateBehaviors
  rw [fetchTotal_map]
  exact fetchPairs_foldl_empty l [] rfl

theorem insertAdd_fst : ∀ (acc : List (String × Option Int)) (nm : String) (v : Option Int),
    (insertAdd acc nm v).map Prod.fst =
      if nm ∈ acc.map Prod.fst then acc.map Prod.fst else acc.map Prod.fst ++ [nm]
  | [], nm, v => by simp [insertAdd]
  | (k, w) :: rest, nm, v => by
    by_cases hk : k = nm
    · subst hk
      simp [insertAdd]
    · have hne : ¬ nm = k := fun h => hk h.symm
      simp only [insertAdd, if_neg hk, List.map_cons, List.mem_cons, hne, false_or]
      rw [insertAdd_fst rest nm v]
      by_cases hmem : nm ∈ rest.map Prod.fst <;> simp [hmem]

theorem nodup_foldl_update : ∀ (l : List RawRecord) (acc : List (String × Option Int)),
    (acc.map Prod.fst).Nodup → ((l.foldl updateLabelSum acc).map Prod.fst).Nodup
  | [], _, h => h
  | r :: l, acc, h => by
    rw [List.foldl_cons]
    apply nodup_foldl_update l
    cases hbn : r.behaviorName with
    | none => simpa [updateLabelSum, hbn] using h
    | some nm =>
      by_cases hnm : nm = ""
      · simpa [updateLabelSum, hbn, hnm] using h
      · rw [updateLabelSum, hbn]
        simp only [if_neg hnm]
        rw [insertAdd_fst acc nm r.value]
        by_cases hmem : nm ∈ acc.map Prod.fst
        · simpa [hmem] using h
        · simp only [if_neg hmem]
          simp [List.nodup_append, h, hmem]

/-- Names in the aggregated output are pairwise distinct. -/
theorem aggregate_names_nodup (l : List RawRecord) :
    ((aggregateBehaviors l).map (fun e => e.name)).Nodup := by
  unfold aggregateBehaviors
  rw [List.map_map]
  have : ((fun e : BehaviorTotal => e.name) ∘ fun p : String × Option Int => (⟨p.1, p.2⟩ : BehaviorTotal))
      = Prod.fst := by
    funext p; rfl
  rw [this]
  exact nodup_foldl_update l [] (by simp)

theorem fetchTotal_of_mem : ∀ (out : List BehaviorTotal),
    ((out.map (fun e => e.name)).Nodup) → ∀ e ∈ out, fetchTotal out e.name = some e.value
  | [], _, e, he => by simp at he
  | h :: t, hnd, e, he => by
    rcases List.mem_cons.mp he with rfl | het
    · simp [fetchTotal]
    · have hne : ¬ h.name = e.name := by
        intro heq
        have : e.name ∈ t.map (fun e => e.name) := List.mem_map_of_mem _ het
        rw [List.map_cons, List.nodup_cons] at hnd
        exact hnd.1 (heq ▸ this)
      simp only [fetchTotal, if_neg hne]
      exact fetchTotal_of_mem t (by rw [List.map_cons, List.nodup_cons] at hnd; exact hnd.2) e het

/-- Every name in the aggregated output is a nonempty string. -/
theorem aggregate_mem_name_ne (l : List RawRecord) :
    ∀ e ∈ aggregateBehaviors l, e.name ≠ "" := by
  intro e he hename
  have hfe := fetchTotal_of_mem _ (aggregate_names_nodup l) e he
  rw [hename, fetchTotal_aggregate_empty l] at hfe
  exact Option.noConfusion hfe

/-! ### Lemmas about the score calculator's category fold -/

theorem sumBy_cons_pos (e : BehaviorItem) (l : List BehaviorItem) (c : String)
    (h : lastSegJs e.name = some c) : sumBy (e :: l) c = e.value + sumBy l c := by
  simp [sumBy, List.filter_cons, h]

theorem sumBy_cons_neg (e : BehaviorItem) (l : List BehaviorItem) (c : String)
    (h : ¬ lastSegJs e.name = some c) : sumBy (e :: l) c = sumBy l c := by
  simp [sumBy, List.filter_cons, h]

/-- Each bucket of the category fold is the initial bucket plus the sum of
the values of the items whose name's last segment selects that bucket. -/
theorem csFold_char : ∀ (l : List BehaviorItem) (acc : CategoryScores),
    (l.foldl csStep acc).damage = acc.damage + sumBy l "damage" ∧
    (l.foldl csStep acc).defense = acc.defense + sumBy l "defense" ∧
    (l.foldl csStep acc).healing = acc.healing + sumBy l "healing" ∧
    (l.foldl csStep acc).communication = acc.communication + sumBy l "communication" := by
  intro l
  induction l with
  | nil => intro acc; simp [sumBy]
  | cons e l ih =>
    intro acc
    rw [List.foldl_cons]
    obtain ⟨hd, hf, hh, hm⟩ := ih (csStep acc e)
    by_cases h1 : lastSegJs e.name = some "damage"
    · have hstep : csStep acc e = { acc with damage := acc.damage + e.value } := by
        simp [csStep, h1]
      rw [hstep] at hd hf hh hm ⊢
      refine ⟨?_, ?_, ?_, ?_⟩
      · rw [hd, sumBy_cons_pos e l _ h1]; simp; ring
      · rw [hf, sumBy_cons_neg e l _ (by rw [h1]; simp)]
      · rw [hh, sumBy_cons_neg e l _ (by rw [h1]; simp)]
      · rw [hm, sumBy_cons_neg e l _ (by rw [h1]; simp)]
    · by_cases h2 : lastSegJs e.name = some "defense"
      · have hstep : csStep acc e = { acc with defense := acc.defense + e.value } := by
          simp [csStep, h1, h2]
        rw [hstep] at hd hf hh hm ⊢
        refine ⟨?_, ?_, ?_, ?_⟩
        · rw [hd, sumBy_cons_neg e l _ (by rw [h2]; simp)]
        · rw [hf, sumBy_cons_pos e l _ h2]; simp; ring
        · rw [hh, sumBy_cons_neg e l _ (by rw [h2]; simp)]
        · rw [hm, sumBy_cons_neg e l _ (by rw [h2]; simp)]
      · by_cases h3 : lastSegJs e.name = some "healing"
        · have hstep : csStep acc e = { acc with healing := acc.healing + e.value } := by
            simp [csStep, h1, h2, h3]
          rw [hstep] at hd hf hh hm ⊢
          refine ⟨?_, ?_, ?_, ?_⟩
          · rw [hd, sumBy_cons_neg e l _ (by rw [h3]; simp)]
          · rw [hf, sumBy_cons_neg e l _ (by rw [h3]; simp)]
          · rw [hh, sumBy_cons_pos e l _ h3]; simp; ring
          · rw [hm, sumBy_cons_neg e l _ (by rw [h3]; simp)]
        · by_cases h4 : lastSegJs e.name = some "communication"
          · have hstep : csStep acc e =
                { acc with communication := acc.communication + e.value } := by
              simp [csStep, h1, h2, h3, h4]
            rw [hstep] at hd hf hh hm ⊢
            refine ⟨?_, ?_, ?_, ?_⟩
            · rw [hd, sumBy_cons_neg e l _ (by rw [h4]; simp)]
            · rw [hf, sumBy_cons_neg e l _ (by rw [h4]; simp)]
            · rw [hh, sumBy_cons_neg e l _ (by rw [h4]; simp)]
            · rw [hm, sumBy_cons_pos e l _ h4]; simp; ring
          · have hstep : csStep acc e = acc := by
              simp [csStep, h1, h2, h3, h4]
            rw [hstep] at hd hf hh hm ⊢
            exact ⟨by rw [hd, sumBy_cons_neg e l _ h1],
              by rw [hf, sumBy_cons_neg e l _ h2],
              by rw [hh, sumBy_cons_neg e l _ h3],
              by rw [hm, sumBy_cons_neg e l _ h4]⟩

/-- The four-bucket total of the score calculator in terms of sums over
the input items. -/
theorem csTotal_eq (l : List BehaviorItem) :
    csTotal l = sumBy l "damage" + sumBy l "defense" + sumBy l "healing" +
      sumBy l "communication" := by
  obtain ⟨hd, hf, hh, hm⟩ := csFold_char l ⟨0, 0, 0, 0⟩
  simp only [csTotal, categoryScoresOf]
  rw [hd, hf, hh, hm]
  simp

/-! ### Lemmas about the rejoin fold and mapping reads -/

theorem rejoin_foldl_count : ∀ (l : List RejoinItem) (init : ℚ),
    l.foldl (fun sum item => if item.key = "yes" then sum + 1 else sum) init =
      init + ((l.filter (fun i => decide (i.key = "yes"))).length : ℚ)
  | [], init => by simp
  | i :: l, init => by
    by_cases hi : i.key = "yes"
    · rw [List.foldl_cons]
      simp only [hi, if_true]
      rw [rejoin_foldl_count l (init + 1)]
      simp [List.filter_cons, hi]
      ring
    · rw [List.foldl_cons]
      simp only [hi, if_false]
      rw [rejoin_foldl_count l init]
      simp [List.filter_cons, hi]

/-- The function `rejoinYesRate` counts the exact matches of `"yes"` and divides by the
length; the empty list gives the `NaN` no-value state. -/
theorem rejoinYesRate_eq (l : List RejoinItem) :
    rejoinYesRate l =
      if l.length = 0 then none
      else some (((l.filter (fun i => decide (i.key = "yes"))).length : ℚ) / (l.length : ℚ)) := by
  unfold rejoinYesRate
  rw [rejoin_foldl_count l 0]
  simp

theorem sumBy_eq_zero : ∀ (rest : List BehaviorItem) (c : String),
    (∀ x ∈ rest, ':' ∉ x.name.data) → (∀ x ∈ rest, x.name ≠ c) → sumBy rest c = 0
  | [], _, _, _ => by simp [sumBy]
  | x :: rest, c, hcf, hne => by
    have hx : lastSegJs x.name = some x.name :=
      lastSegJs_no_colon _ (hcf x (List.mem_cons_self x rest))
    have hxc : ¬ lastSegJs x.name = some c := by
      rw [hx]
      simp
      exact hne x (List.mem_cons_self x rest)
    rw [sumBy_cons_neg x rest c hxc]
    exact sumBy_eq_zero rest c (fun y hy => hcf y (List.mem_cons_of_mem x hy))
      (fun y hy => hne y (List.mem_cons_of_mem x hy))

/-- For colon-free, pairwise-distinct names, the per-bucket sum is exactly
the mapping read with default `0`. -/
theorem sumBy_eq_fetchItemD : ∀ (entries : List BehaviorItem) (c : String),
    (∀ e ∈ entries, ':' ∉ e.name.data) → ((entries.map (fun e => e.name)).Nodup) →
    sumBy entries c = fetchItemD entries c
  | [], _, _, _ => by simp [sumBy, fetchItemD]
  | e :: rest, c, hcf, hnd => by
    have he : lastSegJs e.name = some e.name :=
      lastSegJs_no_colon _ (hcf e (List.mem_cons_self e rest))
    have hcf' : ∀ x ∈ rest, ':' ∉ x.name.data :=
      fun x hx => hcf x (List.mem_cons_of_mem e hx)
    rw [List.map_cons, List.nodup_cons] at hnd
    by_cases hec : e.name = c
    · have hpos : lastSegJs e.name = some c := by rw [he, hec]
      rw [sumBy_cons_pos e rest c hpos]
      have hrest : sumBy rest c = 0 := by
        apply sumBy_eq_zero rest c hcf'
        intro x hx hxc
        exact hnd.1 (hec ▸ hxc ▸ List.mem_map_of_mem _ hx)
      rw [hrest]
      simp [fetchItemD, hec]
    · have hneg : ¬ lastSegJs e.name = some c := by
        rw [he]
        simpa using hec
      rw [sumBy_cons_neg e rest c hneg]
      simp only [fetchItemD, if_neg hec]
      exact sumBy_eq_fetchItemD rest c hcf' hnd.2

/-- Evaluation of `calculateTeammateScore` on present data with a nonempty rejoin list,
written with the folds replaced by their characterizations. -/
theorem calc_some_some (bdata : List BehaviorItem) (rdata : List RejoinItem)
    (h : rdata ≠ []) :
    calculateTeammateScore (some bdata) (some rdata) =
      some (((csTotal bdata / 4 + 1) / 2) * 100 +
        (((rdata.filter (fun i => decide (i.key = "yes"))).length : ℚ) / (rdata.length : ℚ)) * 10) := by
  have hlen : ¬ rdata.length = 0 := by simpa [List.length_eq_zero] using h
  simp only [calculateTeammateScore, rejoinYesRate_eq, if_neg hlen]

/-! ### Claim theorems -/

/-- C1: for every CategoryTotals mapping (pairwise-distinct, colon-free
category names, as produced by the single-segment key grammar) and every
defined yes-rate (a nonempty rejoin list), the score is
`((average of the four fixed categories, defaulting absent ones to 0) + 1) / 2 * 100`
— unclamped — plus `yesRate * 10`; in particular all-ones totals with
yes-rate `1.0` give `110`. -/
theorem claim_C1 :
    (∀ (entries : List BehaviorItem) (rdata : List RejoinItem),
      (∀ e ∈ entries, ':' ∉ e.name.data) →
      ((entries.map (fun e => e.name)).Nodup) →
      rdata ≠ [] →
      calculateTeammateScore (some entries) (some rdata) =
        some ((((fetchItemD entries "damage" + fetchItemD entries "defense" +
              fetchItemD entries "healing" + fetchItemD entries "communication") / 4 + 1) / 2)
            * 100 +
          (((rdata.filter (fun i => decide (i.key = "yes"))).length : ℚ) / (rdata.length : ℚ))
            * 10))
    ∧ calculateTeammateScore
        (some [⟨"damage", 1⟩, ⟨"defense", 1⟩, ⟨"healing", 1⟩, ⟨"communication", 1⟩])
        (some [⟨"yes"⟩]) = some 110 := by
  have hgen : ∀ (entries : List BehaviorItem) (rdata : List RejoinItem),
      (∀ e ∈ entries, ':' ∉ e.name.data) →
      ((entries.map (fun e => e.name)).Nodup) →
      rdata ≠ [] →
      calculateTeammateScore (some entries) (some rdata) =
        some ((((fetchItemD entries "damage" + fetchItemD entries "defense" +
              fetchItemD entries "healing" + fetchItemD entries "communication") / 4 + 1) / 2)
            * 100 +
          (((rdata.filter (fun i => decide (i.key = "yes"))).length : ℚ) / (rdata.length : ℚ))
            * 10) := by
    intro entries rdata hcf hnd hne
    rw [calc_some_some entries rdata hne, csTotal_eq,
      sumBy_eq_fetchItemD entries "damage" hcf hnd,
      sumBy_eq_fetchItemD entries "defense" hcf hnd,
      sumBy_eq_fetchItemD entries "healing" hcf hnd,
      sumBy_eq_fetchItemD entries "communication" hcf hnd]
  refine ⟨hgen, ?_⟩
  rw [hgen _ _ (by decide) (by decide) (by simp)]
  norm_num [fetchItemD]

/-- C1 witness: the general statement instantiated at the all-ones totals
with a single "yes" rejoin record. -/
theorem claim_C1_witness :
    calculateTeammateScore
      (some [⟨"damage", 1⟩, ⟨"defense", 1⟩, ⟨"healing", 1⟩, ⟨"communication", 1⟩])
      (some [⟨"yes"⟩, ⟨"no"⟩]) =
      some ((((fetchItemD [⟨"damage", 1⟩, ⟨"defense", 1⟩, ⟨"healing", 1⟩, ⟨"communication", 1⟩]
            "damage" +
          fetchItemD [⟨"damage", 1⟩, ⟨"defense", 1⟩, ⟨"healing", 1⟩, ⟨"communication", 1⟩]
            "defense" +
          fetchItemD [⟨"damage", 1⟩, ⟨"defense", 1⟩, ⟨"healing", 1⟩, ⟨"communication", 1⟩]
            "healing" +
          fetchItemD [⟨"damage", 1⟩, ⟨"defense", 1⟩, ⟨"healing", 1⟩, ⟨"communication", 1⟩]
            "communication") / 4 + 1) / 2) * 100 +
        ((([(⟨"yes"⟩ : RejoinItem), ⟨"no"⟩].filter
            (fun i => decide (i.key = "yes"))).length : ℚ) /
          (([(⟨"yes"⟩ : RejoinItem), ⟨"no"⟩].length : ℚ))) * 10) :=
  claim_C1.1 [⟨"damage", 1⟩, ⟨"defense", 1⟩, ⟨"healing", 1⟩, ⟨"communication", 1⟩]
    [⟨"yes"⟩, ⟨"no"⟩] (by decide) (by decide) (by simp)

/-- C2 counterexample: a key whose last segment does not parse as an
integer but whose category segment is nonempty is NOT dropped — it shows
up in the aggregated totals as a `NaN` (`none`) value for its category,
whereas dropping it would have produced the empty output. -/
theorem claim_C2_counterexample :
    processBehaviorData ["a:b:c:damage:xyz"] = [⟨"damage", none⟩] ∧
    ([(⟨"damage", none⟩ : BehaviorTotal)] ≠ ([] : List BehaviorTotal)) := by
  exact ⟨by decide, by simp⟩

/-- C2 (amended): a key whose category segment (second-to-last) is empty or
absent is silently dropped — it contributes nothing to the aggregated
totals and no error is raised — but a key with a nonempty category whose
last segment does not parse as an integer is kept and turns that
category's total into `NaN` (`none`). -/
theorem claim_C2 :
    (∀ (keys1 keys2 : List String) (k : String),
      ((decodeBehaviorKey k).behaviorName = none ∨
        (decodeBehaviorKey k).behaviorName = some "") →
      processBehaviorData (keys1 ++ k :: keys2) = processBehaviorData (keys1 ++ keys2))
    ∧ (∀ (k : String) (cat : String),
      (decodeBehaviorKey k).behaviorName = some cat → cat ≠ "" →
      (decodeBehaviorKey k).value = none →
      processBehaviorData [k] = [⟨cat, none⟩]) := by
  constructor
  · intro keys1 keys2 k hk
    unfold processBehaviorData aggregateBehaviors
    congr 1
    rw [List.map_append, List.map_append, List.map_cons, List.foldl_append,
      List.foldl_append, List.foldl_cons]
    congr 1
    rcases hk with hk | hk <;> simp [updateLabelSum, hk]
  · intro k cat hcat hne hval
    unfold processBehaviorData aggregateBehaviors
    simp [updateLabelSum, hcat, hne, insertAdd, jsAdd, hval]

/-- C2 witness: a one-segment key (absent category) is dropped from the
aggregation, and a well-categorized key with a non-integer value yields a
`NaN` total. -/
theorem claim_C2_witness :
    processBehaviorData (["a:b:c:damage:2"] ++ "foo" :: ["a:b:c:healing:3"]) =
      processBehaviorData (["a:b:c:damage:2"] ++ ["a:b:c:healing:3"]) ∧
    processBehaviorData ["a:b:c:defense:zzz"] = [⟨"defense", none⟩] :=
  ⟨claim_C2.1 ["a:b:c:damage:2"] ["a:b:c:healing:3"] "foo" (Or.inl (by decide)),
   claim_C2.2 "a:b:c:defense:zzz" "defense" (by decide) (by decide) (by decide)⟩

/-- C3 counterexample: with empty totals and the rejoin no-value state,
the code yields `0` (absent rejoin data, guard at index.ts 138) or `NaN`
(empty rejoin array, `0/0`), never `50`. -/
theorem claim_C3_counterexample :
    calculateTeammateScore (some []) none = some 0 ∧
    calculateTeammateScore (some []) (some []) = none ∧
    some (0 : ℚ) ≠ some (50 : ℚ) ∧
    (none : Option ℚ) ≠ some (50 : ℚ) := by
  refine ⟨rfl, ?_, by norm_num, by simp⟩
  simp [calculateTeammateScore, rejoinYesRate]

/-- C3 (amended): `calculateTeammateScore` returns the guard value `0`
whenever either data array is absent, and `NaN` (`none`) when the rejoin
array is present but empty; the no-value rejoin state is never converted
into a zero contribution (the caller's not-found check keeps these cases
out of the score path instead). -/
theorem claim_C3 :
    (∀ bd : Option (List BehaviorItem), calculateTeammateScore bd none = some 0)
    ∧ (∀ rd : Option (List RejoinItem), calculateTeammateScore none rd = some 0)
    ∧ (∀ bdata : List BehaviorItem, calculateTeammateScore (some bdata) (some []) = none) := by
  refine ⟨?_, ?_, ?_⟩
  · intro bd; cases bd <;> rfl
  · intro rd; cases rd <;> rfl
  · intro bdata; simp [calculateTeammateScore, rejoinYesRate]

/-- C4: the yes-rate counts exact, case-sensitive matches of `"yes"` and
divides by the record count; the empty input gives the no-value state
(`none`), which is distinct from a rate of `0`. -/
theorem claim_C4 :
    (∀ l : List RejoinItem, rejoinYesRate l =
      if l.length = 0 then none
      else some (((l.filter (fun i => decide (i.key = "yes"))).length : ℚ) / (l.length : ℚ)))
    ∧ rejoinYesRate [] = none
    ∧ rejoinYesRate [] ≠ some 0
    ∧ rejoinYesRate [⟨"yes"⟩] = some 1
    ∧ rejoinYesRate [⟨"yes"⟩, ⟨"no"⟩] = some (1 / 2)
    ∧ rejoinYesRate [⟨"Yes"⟩] = some 0 := by
  refine ⟨rejoinYesRate_eq, rfl, by simp [rejoinYesRate], ?_, ?_, ?_⟩
  · norm_num [rejoinYesRate]
  · norm_num [rejoinYesRate]
    rw [if_neg (by decide : ¬ ("no" = "yes"))]
  · norm_num [rejoinYesRate]
    exact by decide

/-- C5: a valid behavior key of the form `ns:name:realm:cat:v` whose last
segment parses as a base-10 integer decodes to the record with category
`cat` (the second-to-last segment) and value `int(v)`. -/
theorem claim_C5 : ∀ (key ns nm rl cat v : String) (n : Int),
    splitColon key = [ns, nm, rl, cat, v] → parseIntJs v = some n →
    decodeBehaviorKey key = ⟨some cat, some n⟩ := by
  intro key ns nm rl cat v n hsplit hparse
  unfold decodeBehaviorKey
  rw [hsplit]
  norm_num [jsIdx]
  exact ⟨rfl, hparse⟩

/-- C5 witness: a concrete five-segment key. -/
theorem claim_C5_witness :
    decodeBehaviorKey "ns:Foo:Bar:damage:2" = ⟨some "damage", some 2⟩ :=
  claim_C5 "ns:Foo:Bar:damage:2" "ns" "Foo" "Bar" "damage" "2" 2 (by decide) (by decide)

/-- C6: rejoin decoding drops the first three colon-segments and rejoins
the remainder with `":"` (so an answer may itself contain colons); a key
with fewer than four segments yields the empty-string answer, and every
key — including those — is retained in the endpoint's decoded output. -/
theorem claim_C6 :
    (∀ key : String, (splitColon key).length < 4 → decodeRejoinKey key = "")
    ∧ (∀ p1 p2 p3 ans : String, ':' ∉ p1.data → ':' ∉ p2.data → ':' ∉ p3.data →
        decodeRejoinKey (p1 ++ ":" ++ (p2 ++ ":" ++ (p3 ++ ":" ++ ans))) = ans)
    ∧ (∀ keys : List String,
        (keys.map (fun k => (⟨decodeRejoinKey k⟩ : RejoinItem))).length = keys.length
        ∧ (keys ≠ [] →
            rejoinHandler (some keys) = .ok (keys.map (fun k => ⟨decodeRejoinKey k⟩)))) := by
  refine ⟨?_, ?_, ?_⟩
  · intro key h
    unfold decodeRejoinKey
    rw [List.drop_eq_nil_of_le (by omega)]
    rfl
  · intro p1 p2 p3 ans h1 h2 h3
    unfold decodeRejoinKey
    rw [splitColon_cons p1 _ h1, splitColon_cons p2 _ h2, splitColon_cons p3 _ h3]
    simpa using joinColon_splitColon ans
  · intro keys
    refine ⟨by simp, ?_⟩
    intro hne
    have hlen : ¬ keys.length = 0 := by simpa [List.length_eq_zero] using hne
    simp [rejoinHandler, hlen]

/-- C6 witness: a three-segment key decodes to the empty answer; a
colon-containing answer survives the round trip; a singleton key list is
retained in full. -/
theorem claim_C6_witness :
    decodeRejoinKey "a:b" = "" ∧
    decodeRejoinKey ("wowbehave" ++ ":" ++ ("rejoin" ++ ":" ++ ("Foo" ++ ":" ++ "Bar:yes"))) =
      "Bar:yes" ∧
    rejoinHandler (some ["a:b:c:yes"]) = .ok [⟨decodeRejoinKey "a:b:c:yes"⟩] :=
  ⟨claim_C6.1 "a:b" (by decide),
   claim_C6.2.1 "wowbehave" "rejoin" "Foo" "Bar:yes" (by decide) (by decide) (by decide),
   (claim_C6.2.2 ["a:b:c:yes"]).2 (by simp)⟩

/-- C7: the aggregation is permutation-invariant on behavior records with
integer (non-`NaN`) values: any reordering of the same records yields the
same total for every category. -/
theorem claim_C7 : ∀ (l1 l2 : List RawRecord),
    (∀ r ∈ l1, r.value ≠ none) → l1.Perm l2 →
    ∀ c : String, fetchTotal (aggregateBehaviors l1) c = fetchTotal (aggregateBehaviors l2) c := by
  intro l1 l2 hvals hperm c
  have hvals2 : ∀ r ∈ l2, r.value ≠ none := fun r hr => hvals r (hperm.symm.subset hr)
  by_cases hc : c = ""
  · subst hc
    rw [fetchTotal_aggregate_empty, fetchTotal_aggregate_empty]
  · rw [fetchTotal_aggregate l1 c hc hvals, fetchTotal_aggregate l2 c hc hvals2]
    have hpf : (matchRecs l1 c).Perm (matchRecs l2 c) := hperm.filter _
    have hsum : sumVals l1 c = sumVals l2 c := by
      unfold sumVals
      exact (hpf.map _).sum_eq
    have hnil : matchRecs l1 c = [] ↔ matchRecs l2 c = [] := by
      constructor <;> intro h
      · exact ((h ▸ hpf : ([] : List RawRecord).Perm _).symm).eq_nil
      · exact (h ▸ hpf : _).eq_nil
    by_cases h1 : matchRecs l1 c = []
    · rw [if_pos h1, if_pos (hnil.mp h1)]
    · rw [if_neg h1, if_neg (fun h => h1 (hnil.mpr h)), hsum]

/-- C7 witness: swapping two concrete records leaves the "damage" total
unchanged. -/
theorem claim_C7_witness :
    fetchTotal (aggregateBehaviors [⟨some "damage", some 1⟩, ⟨some "healing", some 2⟩]) "damage"
      = fetchTotal (aggregateBehaviors [⟨some "healing", some 2⟩, ⟨some "damage", some 1⟩])
          "damage" :=
  claim_C7 [⟨some "damage", some 1⟩, ⟨some "healing", some 2⟩]
    [⟨some "healing", some 2⟩, ⟨some "damage", some 1⟩] (by decide) (by decide) "damage"

/-- C8 counterexample: with an empty behaviors scan (and a nonempty rejoin
scan) the score endpoint answers 500 Internal Server Error — the axios
call rejects on the upstream 404 — not the not-found outcome the claim
asserts. -/
theorem claim_C8_counterexample :
    scoreHandler (some []) (some ["wowbehave:rejoin:a:b:yes"]) = .internalError ∧
    ScoreResult.internalError ≠ ScoreResult.notFound :=
  ⟨rfl, by decide⟩

/-- C8 (amended): an empty (or null) prefix-scan result makes the
behaviors lookup report not-found; but when either upstream key collection
is empty, the score lookup answers 500 Internal Server Error without
attempting the score computation — the upstream 404 makes its axios call
reject and the catch at index.ts 170 fires — and the score lookup never
reports not-found (the 404 branch at index.ts 129-134 is unreachable). -/
theorem claim_C8 : ∀ (bkeys rkeys : Option (List String)),
    ((bkeys = none ∨ bkeys = some []) → behaviorsHandler bkeys = .notFound)
    ∧ ((bkeys = none ∨ bkeys = some []) → scoreHandler bkeys rkeys = .internalError)
    ∧ ((rkeys = none ∨ rkeys = some []) → scoreHandler bkeys rkeys = .internalError)
    ∧ scoreHandler bkeys rkeys ≠ .notFound := by
  have hleft : ∀ (bkeys rkeys : Option (List String)),
      behaviorsHandler bkeys = .notFound → scoreHandler bkeys rkeys = .internalError := by
    intro bkeys rkeys h
    unfold scoreHandler
    rw [h]
  have hright : ∀ (bkeys rkeys : Option (List String)),
      rejoinHandler rkeys = .notFound → scoreHandler bkeys rkeys = .internalError := by
    intro bkeys rkeys h
    unfold scoreHandler
    rw [h]
    cases behaviorsHandler bkeys <;> rfl
  intro bkeys rkeys
  refine ⟨?_, ?_, ?_, ?_⟩
  · rintro (rfl | rfl) <;> rfl
  · rintro (rfl | rfl) <;> exact hleft _ _ rfl
  · rintro (rfl | rfl) <;> exact hright _ _ rfl
  · cases hb : behaviorsHandler bkeys <;> cases hr : rejoinHandler rkeys <;>
      simp [scoreHandler, hb, hr]

/-- C8 witness: concrete empty scans answered 404 by the behaviors lookup
and 500 by the score lookup, and a fully successful composition that is
still not the not-found outcome. -/
theorem claim_C8_witness :
    behaviorsHandler (some []) = .notFound ∧
    scoreHandler none (some ["wowbehave:rejoin:a:b:yes"]) = .internalError ∧
    scoreHandler (some ["wowbehave:behavior:a:b:damage:1"]) (some []) = .internalError ∧
    scoreHandler (some ["wowbehave:behavior:a:b:damage:1"])
      (some ["wowbehave:rejoin:a:b:yes"]) ≠ .notFound :=
  ⟨(claim_C8 (some []) none).1 (Or.inr rfl),
   (claim_C8 none (some ["wowbehave:rejoin:a:b:yes"])).2.1 (Or.inl rfl),
   (claim_C8 (some ["wowbehave:behavior:a:b:damage:1"]) (some [])).2.2.1 (Or.inr rfl),
   (claim_C8 (some ["wowbehave:behavior:a:b:damage:1"])
     (some ["wowbehave:rejoin:a:b:yes"])).2.2.2⟩

theorem sumBy_append (a b : List BehaviorItem) (c : String) :
    sumBy (a ++ b) c = sumBy a c + sumBy b c := by
  simp [sumBy, List.filter_append]

/-- C9: in the score computation an entry's name is re-split on `":"` and
only its last segment selects a category: an entry whose last segment is
not one of the four fixed categories leaves the score unchanged, and one
whose last segment is a fixed category adds its value to the four-bucket
total. -/
theorem claim_C9 : ∀ (l1 l2 : List BehaviorItem) (e : BehaviorItem)
    (rd : Option (List RejoinItem)),
    (lastSegJs e.name ∉
        ([some "damage", some "defense", some "healing", some "communication"] :
          List (Option String)) →
      calculateTeammateScore (some (l1 ++ e :: l2)) rd =
        calculateTeammateScore (some (l1 ++ l2)) rd)
    ∧ (∀ c : String, lastSegJs e.name = some c →
        c ∈ (["damage", "defense", "healing", "communication"] : List String) →
        csTotal (l1 ++ e :: l2) = csTotal (l1 ++ l2) + e.value) := by
  intro l1 l2 e rd
  constructor
  · intro hnot
    simp only [List.mem_cons, List.not_mem_nil, or_false, not_or] at hnot
    obtain ⟨h1, h2, h3, h4⟩ := hnot
    have hcs : csTotal (l1 ++ e :: l2) = csTotal (l1 ++ l2) := by
      simp only [csTotal_eq, sumBy_append,
        sumBy_cons_neg e l2 "damage" h1,
        sumBy_cons_neg e l2 "defense" h2,
        sumBy_cons_neg e l2 "healing" h3,
        sumBy_cons_neg e l2 "communication" h4]
    cases rd with
    | none => rfl
    | some rdata => simp only [calculateTeammateScore, hcs]
  · intro c hc hmem
    simp only [List.mem_cons, List.not_mem_nil, or_false] at hmem
    rcases hmem with rfl | rfl | rfl | rfl
    · simp only [csTotal_eq, sumBy_append,
        sumBy_cons_pos e l2 "damage" hc,
        sumBy_cons_neg e l2 "defense" (by rw [hc]; simp),
        sumBy_cons_neg e l2 "healing" (by rw [hc]; simp),
        sumBy_cons_neg e l2 "communication" (by rw [hc]; simp)]
      ring
    · simp only [csTotal_eq, sumBy_append,
        sumBy_cons_pos e l2 "defense" hc,
        sumBy_cons_neg e l2 "damage" (by rw [hc]; simp),
        sumBy_cons_neg e l2 "healing" (by rw [hc]; simp),
        sumBy_cons_neg e l2 "communication" (by rw [hc]; simp)]
      ring
    · simp only [csTotal_eq, sumBy_append,
        sumBy_cons_pos e l2 "healing" hc,
        sumBy_cons_neg e l2 "damage" (by rw [hc]; simp),
        sumBy_cons_neg e l2 "defense" (by rw [hc]; simp),
        sumBy_cons_neg e l2 "communication" (by rw [hc]; simp)]
      ring
    · simp only [csTotal_eq, sumBy_append,
        sumBy_cons_pos e l2 "communication" hc,
        sumBy_cons_neg e l2 "damage" (by rw [hc]; simp),
        sumBy_cons_neg e l2 "defense" (by rw [hc]; simp),
        sumBy_cons_neg e l2 "healing" (by rw [hc]; simp)]
      ring

/-- C9 witness: an entry named "other" leaves the score unchanged; an
entry whose last segment is "damage" adds its value to the bucket total. -/
theorem claim_C9_witness :
    calculateTeammateScore (some [⟨"other", 5⟩]) (some [⟨"yes"⟩]) =
      calculateTeammateScore (some []) (some [⟨"yes"⟩]) ∧
    csTotal [⟨"damage", 2⟩] = csTotal [] + 2 :=
  ⟨(claim_C9 [] [] ⟨"other", 5⟩ (some [⟨"yes"⟩])).1 (by decide),
   (claim_C9 [] [] ⟨"damage", 2⟩ none).2 "damage" (by decide) (by decide)⟩

/-- C10 counterexample: with a non-integer key present, the aggregated
entry's value need not equal the (JS) sum of the decoded values of the
matching keys — `NaN` first and `5` second leaves the total `5`, while the
sum of the two decoded values is `NaN`. -/
theorem claim_C10_counterexample :
    processBehaviorData ["a:b:c:d:x", "a:b:c:d:5"] = [⟨"d", some 5⟩] ∧
    (["a:b:c:d:x", "a:b:c:d:5"].filter
      (fun k => decide ((decodeBehaviorKey k).behaviorName = some "d"))) =
        ["a:b:c:d:x", "a:b:c:d:5"] ∧
    (["a:b:c:d:x", "a:b:c:d:5"].map (fun k => (decodeBehaviorKey k).value)).foldl jsAdd
        (some 0) = none ∧
    some (5 : Int) ≠ (none : Option Int) := by
  exact ⟨by decide, by decide, by decide, by simp⟩

/-- C10 (amended): the aggregated output always has pairwise-distinct
category names, and when every input key's value segment parses as an
integer, each entry's value is the sum of the decoded values of the keys
whose category equals that entry's name. -/
theorem claim_C10 : ∀ keys : List String,
    ((processBehaviorData keys).map (fun e => e.name)).Nodup
    ∧ ((∀ k ∈ keys, (decodeBehaviorKey k).value ≠ none) →
      ∀ e ∈ processBehaviorData keys,
        e.value = some (((keys.filter
            (fun k => decide ((decodeBehaviorKey k).behaviorName = some e.name))).map
          (fun k => jsOr0 (decodeBehaviorKey k).value)).sum)) := by
  intro keys
  refine ⟨aggregate_names_nodup _, ?_⟩
  intro hvals e he
  have hvals' : ∀ r ∈ keys.map decodeBehaviorKey, r.value ≠ none := by
    intro r hr
    obtain ⟨k, hk, rfl⟩ := List.mem_map.mp hr
    exact hvals k hk
  have hname : e.name ≠ "" := aggregate_mem_name_ne _ e he
  have hfetch := fetchTotal_of_mem _ (aggregate_names_nodup (keys.map decodeBehaviorKey)) e he
  rw [fetchTotal_aggregate _ _ hname hvals'] at hfetch
  by_cases hnil : matchRecs (keys.map decodeBehaviorKey) e.name = []
  · rw [if_pos hnil] at hfetch
    exact absurd hfetch (by simp)
  · rw [if_neg hnil] at hfetch
    have hev : e.value = some (sumVals (keys.map decodeBehaviorKey) e.name) :=
      (Option.some.inj hfetch).symm
    rw [hev]
    congr 1
    unfold sumVals matchRecs
    rw [List.filter_map, List.map_map]
    rfl

/-- C10 witness: two integer-valued keys for the same category sum to `5`. -/
theorem claim_C10_witness :
    ((⟨"damage", some (5 : Int)⟩ : BehaviorTotal)).value =
      some (((["a:b:c:damage:2", "a:b:c:damage:3"].filter
          (fun k => decide ((decodeBehaviorKey k).behaviorName =
            some (⟨"damage", some (5 : Int)⟩ : BehaviorTotal).name))).map
        (fun k => jsOr0 (decodeBehaviorKey k).value)).sum) :=
  (claim_C10 ["a:b:c:damage:2", "a:b:c:damage:3"]).2 (by decide) ⟨"damage", some 5⟩ (by decide)

end DungeonHonor
